import Mathlib

/-!
# The MinIO object-storage adapter (`internal/dao/storage/minio.go`)

A shallow embedding of `minioServant` and its methods, together with the
parts of the Go standard library (`strings.Replace`, `strings.Count`,
`strings.Index`, int64 arithmetic of `time.Duration`) that decide what the
methods return.

Conventions of the embedding:

* a Go `string` is its sequence of bytes (`GoString`);
* a Go `error` value is `Option Error`, `none` being `nil`;
* the backend client is a record of answer functions; every call the adapter
  issues on the client is appended to a trace (`List BackendCall`), and the
  answer may depend on the trace so far, so stateful backends are covered;
* a channel is what its reader sees of it over the whole call: the values
  that arrive, in order, and whether the channel is closed after them; a
  `range` over a channel that is never closed does not end, and a method that
  does not return has the result `none`;
* `time.Now()` is an argument (`now`) of the method that reads the clock.
-/

namespace Storage

/-! ## Go strings -/

/-- One byte of a Go string. -/
abbrev Byte := Fin 256

/-- A Go `string`: an immutable sequence of bytes. -/
abbrev GoString := List Byte

/-- Go `strings.HasPrefix(s, pre)`:
`len(s) >= len(pre) && s[:len(pre)] == pre`. -/
def HasPrefix (s pre : GoString) : Bool :=
  decide (pre.length ≤ s.length) && (s.take pre.length == pre)

/-- Go `strings.Index(s, substr)`: the index of the first instance of `substr`
in `s`; `none` stands for the result `-1` (no instance). -/
def Index : GoString → GoString → Option Nat
  | [], substr => if substr.length = 0 then some 0 else none
  | c :: s, substr =>
    if HasPrefix (c :: s) substr then some 0
    else (Index s substr).map (· + 1)

/-- Go `bytealg.CountString(s, c)`: the number of bytes of `s` equal to `c`. -/
def CountString (s : GoString) (c : Byte) : Nat :=
  (s.filter (fun b => b == c)).length

/-- The table `first` of `unicode/utf8`: what the first byte of a sequence
says about it (`as = 0xF0` ASCII, `xx = 0xF1` invalid, otherwise the size in
the low three bits and the index of the accept range in the high four). -/
def first (b : Byte) : Nat :=
  if b.val < 0x80 then 0xF0
  else if b.val < 0xC2 then 0xF1
  else if b.val < 0xE0 then 0x02
  else if b.val = 0xE0 then 0x13
  else if b.val < 0xED then 0x03
  else if b.val = 0xED then 0x23
  else if b.val < 0xF0 then 0x03
  else if b.val = 0xF0 then 0x34
  else if b.val < 0xF4 then 0x04
  else if b.val = 0xF4 then 0x44
  else 0xF1

/-- The table `acceptRanges` of `unicode/utf8`: the range `(lo, hi)` the second
byte of a sequence has to lie in. -/
def acceptRanges (i : Nat) : Nat × Nat :=
  match i with
  | 0 => (0x80, 0xBF)
  | 1 => (0xA0, 0xBF)
  | 2 => (0x80, 0x9F)
  | 3 => (0x90, 0xBF)
  | 4 => (0x80, 0x8F)
  | _ => (0, 0)

/-- The second result (`size`) of Go `utf8.DecodeRuneInString(s)`: the width in
bytes of the first UTF-8 sequence of `s`; 0 for the empty string, 1 for an
invalid or short sequence. -/
def DecodeRuneInString_size (s : GoString) : Nat :=
  match s with
  | [] => 0
  | s0 :: rest =>
    let x := first s0
    if x ≥ 0xF0 then 1
    else
      let sz := x % 8
      let accept := acceptRanges (x / 16)
      if s.length < sz then 1
      else
        match rest with
        | [] => 1
        | s1 :: rest1 =>
          if s1.val < accept.1 ∨ accept.2 < s1.val then 1
          else if sz ≤ 2 then 2
          else
            match rest1 with
            | [] => 1
            | s2 :: rest2 =>
              if s2.val < 0x80 ∨ 0xBF < s2.val then 1
              else if sz ≤ 3 then 3
              else
                match rest2 with
                | [] => 1
                | s3 :: _ =>
                  if s3.val < 0x80 ∨ 0xBF < s3.val then 1
                  else 4

/-- The loop of Go `utf8.RuneCountInString`: one step per rune (an invalid or
short sequence counts as one rune of width 1). `fuel` bounds the number of
iterations; `s` is the part of the string not yet scanned. -/
def runeCountLoop : Nat → GoString → Nat → Nat
  | 0, _, n => n
  | fuel + 1, s, n =>
    match s with
    | [] => n
    | _ :: _ => runeCountLoop fuel (s.drop (DecodeRuneInString_size s)) (n + 1)

/-- Go `utf8.RuneCountInString(s)`. Every step consumes at least one byte, so
`len(s)` iterations are enough. -/
def RuneCountInString (s : GoString) : Nat :=
  runeCountLoop s.length s 0

/-- The loop of Go `strings.Count` for a `substr` of two bytes or more:
```go
n := 0
for {
    i := Index(s, substr)
    if i == -1 { return n }
    n++
    s = s[i+len(substr):]
}
```
`fuel` bounds the number of iterations. -/
def countLoop (substr : GoString) : Nat → GoString → Nat → Nat
  | 0, _, n => n
  | fuel + 1, s, n =>
    match Index s substr with
    | none => n
    | some i => countLoop substr fuel (s.drop (i + substr.length)) (n + 1)

/-- Go `strings.Count(s, substr)`: the number of non-overlapping instances of
`substr` in `s`; `utf8.RuneCountInString(s) + 1` for the empty `substr`. Each
iteration of the loop shortens `s`, so `len(s) + 1` iterations are enough
(`countLoop_fuel` below). -/
def Count (s substr : GoString) : Nat :=
  match substr with
  | [] => RuneCountInString s + 1
  | [c] => CountString s c
  | _ => countLoop substr (s.length + 1) s 0

/-- The replacement loop of Go `strings.Replace`, on `rest = s[start:]`:
```go
for i := 0; i < n; i++ {
    j := start
    if len(old) == 0 {
        if i > 0 {
            _, wid := utf8.DecodeRuneInString(s[start:])
            j += wid
        }
    } else {
        j += Index(s[start:], old)
    }
    b.WriteString(s[start:j])
    b.WriteString(new)
    start = j + len(old)
}
b.WriteString(s[start:])
```
The first argument is the number of iterations left, the second is `i`. The
result is what the builder receives from here on. `none` is the run-time panic
of `s[start:j]` when `Index` answers `-1` (`j = start - 1`). -/
def replaceLoop (old new : GoString) : Nat → Nat → GoString → Option GoString
  | 0, _, rest => some rest
  | k + 1, i, rest =>
    if old.length = 0 then
      let j := if i > 0 then DecodeRuneInString_size rest else 0
      (replaceLoop old new k (i + 1) (rest.drop j)).map
        (fun out => rest.take j ++ new ++ out)
    else
      match Index rest old with
      | none => none
      | some j =>
        (replaceLoop old new k (i + 1) (rest.drop (j + old.length))).map
          (fun out => rest.take j ++ new ++ out)

/-- Go `strings.Replace(s, old, new, n)`:
```go
if old == new || n == 0 { return s }
if m := Count(s, old); m == 0 {
    return s
} else if n < 0 || m < n {
    n = m
}
... the replacement loop ...
```
`none` is a run-time panic (there is none: `Replace_returns`). -/
def Replace (s old new : GoString) (n : Int) : Option GoString :=
  if old = new ∨ n = 0 then some s
  else
    let m := Count s old
    if m = 0 then some s
    else
      let n' : Nat := if n < 0 ∨ (m : Int) < n then m else n.toNat
      replaceLoop old new n' 0 s

/-! ## Values exchanged with the backend SDK -/

/-- A Go `error` that is not `nil`. -/
structure Error where
  msg : GoString
deriving DecidableEq

/-- The retention modes of the SDK (`minio.RetentionMode`). The zero value
`""`, no retention mode, is `none` of `Option RetentionMode`. -/
inductive RetentionMode where
  | Governance
  | Compliance
deriving DecidableEq

/-- A `time.Time`, as its instant: a count of nanoseconds on the integer line.
The zero `time.Time` of an unset option field is `none` of `Option Time`. -/
abbrev Time := Int

/-- A `time.Duration`: an int64 count of nanoseconds. -/
abbrev Duration := Int

/-- An int64 result: the value of `x` wrapped into `[-2^63, 2^63)`. -/
def wrapInt64 (x : Int) : Int :=
  (x + 2 ^ 63) % 2 ^ 64 - 2 ^ 63

/-- Go `time.Second`. -/
def Second : Duration := 1000000000

/-- The product of two `time.Duration` values: int64 multiplication, which
wraps around silently. -/
def Duration.mul (a b : Duration) : Duration :=
  wrapInt64 (a * b)

/-- Go `t.Add(d)`: the instant `d` after `t`. (Go saturates at the two ends of
the range a `time.Time` can hold, some 292 billion years from year 1; the
instants of the model are unbounded.) -/
def Time.Add (t : Time) (d : Duration) : Time :=
  t + d

/-- The fields of `minio.PutObjectOptions` the adapter sets; every other field
keeps its zero value. -/
structure PutObjectOptions where
  ContentType : GoString
  Mode : Option RetentionMode
  RetainUntilDate : Option Time
deriving DecidableEq

/-- One result read from the channel `RemoveObjects` returns
(`minio.RemoveObjectError`). -/
structure RemoveObjectError where
  ObjectName : GoString
  Err : Option Error
deriving DecidableEq

/-- The objects channel of a bulk delete, as its reader (the SDK) sees it over
the whole call: the keys sent on it, in order, and whether the sender closes
it after them. -/
structure ObjectsCh where
  sent : List GoString
  closed : Bool
deriving DecidableEq

/-- The result channel of a bulk delete, as its reader (the adapter) sees it:
the results delivered, in order, and whether the SDK closes it after them. -/
structure ResultCh where
  delivered : List RemoveObjectError
  closed : Bool
deriving DecidableEq

/-- Go `for v := range ch { state = body(state, v) }` on a result channel: the
body runs on every delivered value, and the loop ends when the channel is
closed. On a channel that is never closed the receive after the last value
blocks for ever: `none`. -/
def ResultCh.range {σ : Type} (ch : ResultCh) (body : σ → RemoveObjectError → σ)
    (init : σ) : Option σ :=
  if ch.closed then some (ch.delivered.foldl body init) else none

/-- A call issued on the SDK client, with the arguments the adapter chooses.
`RemoveObjects` records the objects channel the adapter hands over: the keys
it sends on it and whether it closes it. -/
inductive BackendCall where
  | PutObject (bucket objectName reader : GoString) (objectSize : Int)
      (opts : PutObjectOptions)
  | PutObjectRetention (bucket objectName : GoString)
      (mode : Option RetentionMode) (retainUntilDate : Option Time)
  | RemoveObject (bucket objectName : GoString) (forceDelete : Bool)
  | RemoveObjects (bucket : GoString) (objectsCh : ObjectsCh)
  | StatObject (bucket objectName : GoString)
  | PresignedGetObject (bucket objectName : GoString) (expires : Duration)
      (reqParams : List (GoString × List GoString))
deriving DecidableEq

/-- The calls issued on the client so far, oldest first. -/
abbrev Trace := List BackendCall

/-- The SDK client (`*minio.Client`) as the adapter sees it: for each method
the answer it gives, which may depend on the calls made before. The bulk
delete is not an answer but a protocol on two channels (`Client.RemoveObjects`
below); what varies in it is the SDK's check of the bucket name
(`CheckValidBucketName`, `nil` for a name it accepts) and `multiDelete`, the
per-key results of one multi-object delete request for a batch of keys. -/
structure Client where
  PutObject : Trace → GoString → GoString → GoString → Int → PutObjectOptions →
    Option Error
  PutObjectRetention : Trace → GoString → GoString → Option RetentionMode →
    Option Time → Option Error
  RemoveObject : Trace → GoString → GoString → Bool → Option Error
  CheckValidBucketName : GoString → Option Error
  multiDelete : Trace → GoString → List GoString → List RemoveObjectError
  StatObject : Trace → GoString → GoString → Option Error
  PresignedGetObject : Trace → GoString → GoString → Duration →
    List (GoString × List GoString) → Except Error GoString

/-- The worker of the SDK's bulk delete (`removeObjects` in `api-remove.go` of
minio-go v7, a dependency and not part of this repository), on the keys
`pending` that it has not read yet:
```go
maxEntries := 1000
finish := false
defer close(resultCh)
for {
    if finish { break }
    count := 0
    var batch []ObjectInfo
    for object := range objectsCh {      // ends at 1000 keys or at close
        batch = append(batch, object)
        if count++; count >= maxEntries { break }
    }
    if count == 0 { break }
    if count < maxEntries { finish = true }
    ... one multi-object delete request for batch; its per-key results go to
    resultCh, and those with an error are forwarded to the caller ...
}
```
With fewer than 1000 keys left the inner `range` ends only when the sender
closes the objects channel: until then the worker waits, sends no request
for those keys and does not close the result channel. `fuel` bounds the
number of batches. -/
def removeObjects (multiDelete : List GoString → List RemoveObjectError)
    (closed : Bool) : Nat → List GoString → ResultCh
  | 0, _ => ⟨[], false⟩
  | fuel + 1, pending =>
    if 1000 ≤ pending.length then
      let rest := removeObjects multiDelete closed fuel (pending.drop 1000)
      ⟨(multiDelete (pending.take 1000)).filter (fun r => r.Err.isSome) ++ rest.delivered,
        rest.closed⟩
    else if !closed then ⟨[], false⟩
    else if pending.length = 0 then ⟨[], true⟩
    else ⟨(multiDelete pending).filter (fun r => r.Err.isSome), true⟩

/-- The SDK's `(*minio.Client).RemoveObjects(ctx, bucketName, objectsCh, opts)`
with `ctx = context.Background()`: the channel it returns.
```go
errorCh := make(chan RemoveObjectError, 1)
if err := s3utils.CheckValidBucketName(bucketName); err != nil {
    defer close(errorCh)
    errorCh <- RemoveObjectError{Err: err}
    return errorCh
}
...
go c.removeObjects(ctx, bucketName, objectsCh, resultCh, opts)
go func() { defer close(errorCh); ... forward the results with an error ... }()
return errorCh
```
Every batch takes at least one key, so `len(sent) + 1` batches are enough
(`removeObjects_closes` below). -/
def Client.RemoveObjects (c : Client) (tr : Trace) (bucketName : GoString)
    (objectsCh : ObjectsCh) : ResultCh :=
  match c.CheckValidBucketName bucketName with
  | some err => ⟨[⟨[], some err⟩], true⟩
  | none =>
    removeObjects (c.multiDelete tr bucketName) objectsCh.closed
      (objectsCh.sent.length + 1) objectsCh.sent

/-! ## The adapter -/

/-- The Go struct `minioServant`. -/
structure minioServant where
  client : Client
  bucket : GoString
  domain : GoString
  retainInDays : Duration
  retainUntilDate : Time
  allowPersistObject : Bool

/-- `PutObject`: the returned pair `(string, error)` and the trace after the
call. `now` is what `time.Now()` answers, `reader` the content read. -/
def minioServant.PutObject (s : minioServant) (now : Time)
    (objectKey reader : GoString) (objectSize : Int) (contentType : GoString)
    (persistance : Bool) (tr : Trace) : (GoString × Option Error) × Trace :=
  let opts : PutObjectOptions :=
    { ContentType := contentType, Mode := none, RetainUntilDate := none }
  let opts : PutObjectOptions :=
    if s.allowPersistObject && !persistance then
      { opts with
        Mode := some RetentionMode.Governance,
        RetainUntilDate := some (Time.Add now s.retainInDays) }
    else opts
  let err := s.client.PutObject tr s.bucket objectKey reader objectSize opts
  let tr' := tr ++ [BackendCall.PutObject s.bucket objectKey reader objectSize opts]
  match err with
  | some e => (([], some e), tr')
  | none => ((s.domain ++ objectKey, none), tr')

/-- `PersistObject`: the returned error and the trace after the call. -/
def minioServant.PersistObject (s : minioServant) (objectKey : GoString)
    (tr : Trace) : Option Error × Trace :=
  if !s.allowPersistObject then (none, tr)
  else
    let retentionMode := RetentionMode.Governance
    (s.client.PutObjectRetention tr s.bucket objectKey (some retentionMode)
        (some s.retainUntilDate),
      tr ++ [BackendCall.PutObjectRetention s.bucket objectKey (some retentionMode)
        (some s.retainUntilDate)])

/-- `DeleteObject`: the returned error and the trace after the call. -/
def minioServant.DeleteObject (s : minioServant) (objectKey : GoString)
    (tr : Trace) : Option Error × Trace :=
  (s.client.RemoveObject tr s.bucket objectKey true,
    tr ++ [BackendCall.RemoveObject s.bucket objectKey true])

/-- `DeleteObjects`: the returned error, `none` when the method does not
return, and the trace after the call. The objects channel has room for every
key (`make(chan minio.ObjectInfo, len(objectKeys))`), so each send of the loop
of lines 71-75 goes through at once; the method has no `close(objectsCh)`, so
the channel the SDK reads is never closed. The result channel is then ranged
over (lines 78-82): the named result `err` starts as `nil` and is overwritten
by every result whose `Err` is not `nil`. -/
def minioServant.DeleteObjects (s : minioServant) (objectKeys : List GoString)
    (tr : Trace) : Option (Option Error) × Trace :=
  let objectsCh : ObjectsCh := { sent := objectKeys, closed := false }
  let resCh := s.client.RemoveObjects tr s.bucket objectsCh
  let tr' := tr ++ [BackendCall.RemoveObjects s.bucket objectsCh]
  (resCh.range (fun err result => if result.Err ≠ none then result.Err else err) none,
    tr')

/-- `IsObjectExist`: the returned pair `(bool, error)` and the trace after the
call. -/
def minioServant.IsObjectExist (s : minioServant) (objectKey : GoString)
    (tr : Trace) : (Bool × Option Error) × Trace :=
  let err := s.client.StatObject tr s.bucket objectKey
  let tr' := tr ++ [BackendCall.StatObject s.bucket objectKey]
  match err with
  | some e => ((false, some e), tr')
  | none => ((true, none), tr')

/-- `SignURL`: the returned pair `(string, error)` and the trace after the
call. `expiredInSec` is an int64; the duration handed to the client is the
int64 product `time.Duration(expiredInSec) * time.Second`. -/
def minioServant.SignURL (s : minioServant) (objectKey : GoString)
    (expiredInSec : Int) (tr : Trace) : (GoString × Option Error) × Trace :=
  let reqParams : List (GoString × List GoString) := []
  let expires := Duration.mul expiredInSec Second
  let r := s.client.PresignedGetObject tr s.bucket objectKey expires reqParams
  let tr' := tr ++ [BackendCall.PresignedGetObject s.bucket objectKey expires reqParams]
  match r with
  | .error e => (([], some e), tr')
  | .ok signedURL => ((signedURL, none), tr')

/-- `ObjectURL`: `s.domain + objetKey`. -/
def minioServant.ObjectURL (s : minioServant) (objetKey : GoString) : GoString :=
  s.domain ++ objetKey

/-- `ObjectKey`: `strings.Replace(objectUrl, s.domain, "", -1)`; `none` would be
a run-time panic inside `strings.Replace` (there is none: `ObjectKey_returns`). -/
def minioServant.ObjectKey (s : minioServant) (objectUrl : GoString) :
    Option GoString :=
  Replace objectUrl s.domain [] (-1)

/-! ## Concrete values used in the examples below -/

/-- The error of a bucket name shorter than three bytes. -/
def errBucketShort : Error := ⟨[0x73, 0x68, 0x6F, 0x72, 0x74]⟩

/-- The error of a bucket name longer than 63 bytes. -/
def errBucketLong : Error := ⟨[0x6C, 0x6F, 0x6E, 0x67]⟩

/-- The bucket-name check of the example clients: the two length tests of the
SDK's `CheckValidBucketName` (at least 3 and at most 63 bytes). -/
def checkBucketLength (bucketName : GoString) : Option Error :=
  if bucketName.length < 3 then some errBucketShort
  else if 63 < bucketName.length then some errBucketLong
  else none

/-- The error every call of `failingClient` answers. -/
def errDown : Error := ⟨[0x64, 0x6F, 0x77, 0x6E]⟩

/-- A second error: what the store of `failingClient` answers for key `"3"`
in a bulk delete. -/
def errDenied : Error := ⟨[0x64, 0x65, 0x6E, 0x69, 0x65, 0x64]⟩

/-- A client whose every call succeeds and whose store deletes every key of a
batch. -/
def quietClient : Client where
  PutObject := fun _ _ _ _ _ _ => none
  PutObjectRetention := fun _ _ _ _ _ => none
  RemoveObject := fun _ _ _ _ => none
  CheckValidBucketName := checkBucketLength
  multiDelete := fun _ _ batch => batch.map (fun k => ⟨k, none⟩)
  StatObject := fun _ _ _ => none
  PresignedGetObject := fun _ _ key _ _ => .ok key

/-- A client whose every call fails with `errDown`, and whose store, in a
bulk delete, fails key `"2"` with `errDown` and key `"3"` with `errDenied` and
deletes every other key. -/
def failingClient : Client where
  PutObject := fun _ _ _ _ _ _ => some errDown
  PutObjectRetention := fun _ _ _ _ _ => some errDown
  RemoveObject := fun _ _ _ _ => some errDown
  CheckValidBucketName := checkBucketLength
  multiDelete := fun _ _ batch =>
    batch.map (fun k =>
      ⟨k, if k = [0x32] then some errDown else if k = [0x33] then some errDenied else none⟩)
  StatObject := fun _ _ _ => some errDown
  PresignedGetObject := fun _ _ _ _ _ => .error errDown

/-- An adapter with bucket `"b"`, domain `"aa"`, a retention of one day, and
persistence allowed, on `quietClient`. -/
def demo : minioServant where
  client := quietClient
  bucket := [0x62]
  domain := [0x61, 0x61]
  retainInDays := 86400000000000
  retainUntilDate := 4102444800000000000
  allowPersistObject := true

/-- The adapter `demo` with persistence not allowed, on `failingClient`. -/
def demoOff : minioServant :=
  { demo with client := failingClient, allowPersistObject := false }

/-- The adapter `demo` on the bucket `"bkt"`, a name the SDK accepts. -/
def demoBkt : minioServant :=
  { demo with bucket := [0x62, 0x6B, 0x74] }

/-- The adapter `demoOff` on the bucket `"bkt"`. -/
def demoOffBkt : minioServant :=
  { demoOff with bucket := [0x62, 0x6B, 0x74] }

/-! ## `strings.Index` -/

theorem HasPrefix_iff (s pre : GoString) : HasPrefix s pre = true ↔ pre <+: s := by
  unfold HasPrefix
  rw [List.prefix_iff_eq_take]
  constructor
  · intro h
    simp only [Bool.and_eq_true, decide_eq_true_eq, beq_iff_eq] at h
    exact h.2.symm
  · intro h
    have hlen : pre.length ≤ s.length := by
      have := congrArg List.length h
      rw [List.length_take] at this
      omega
    simp only [Bool.and_eq_true, decide_eq_true_eq, beq_iff_eq]
    exact ⟨hlen, h.symm⟩

/-- `Index` answers `-1` exactly when `substr` does not occur in `s`. -/
theorem Index_eq_none_iff (s substr : GoString) :
    Index s substr = none ↔ ¬ substr <:+: s := by
  induction s with
  | nil =>
    unfold Index
    by_cases h : substr.length = 0
    · have : substr = [] := List.length_eq_zero.mp h
      subst this
      simp
    · have : substr ≠ [] := fun e => h (by simp [e])
      simp [h, this]
  | cons c s ih =>
    unfold Index
    rw [List.infix_cons_iff]
    by_cases h : HasPrefix (c :: s) substr = true
    · have := (HasPrefix_iff _ _).mp h
      simp [h, this]
    · have hp : ¬ substr <+: c :: s := fun hp => h ((HasPrefix_iff _ _).mpr hp)
      simp only [h, Bool.false_eq_true, if_false, Option.map_eq_none', ih, hp, false_or]

/-- Where `Index` finds `substr`, it is: `s[i:]` starts with `substr`. -/
theorem Index_some_starts (s substr : GoString) (i : Nat)
    (h : Index s substr = some i) : substr <+: s.drop i := by
  induction s generalizing i with
  | nil =>
    unfold Index at h
    by_cases hl : substr.length = 0
    · have : substr = [] := List.length_eq_zero.mp hl
      subst this
      simp
    · simp [hl] at h
  | cons c s ih =>
    unfold Index at h
    by_cases hp : HasPrefix (c :: s) substr = true
    · simp only [hp, if_true, Option.some.injEq] at h
      subst h
      simpa using (HasPrefix_iff _ _).mp hp
    · simp only [hp, Bool.false_eq_true, if_false, Option.map_eq_some'] at h
      obtain ⟨j, hj, rfl⟩ := h
      simpa using ih j hj

theorem Index_some_le (s substr : GoString) (i : Nat)
    (h : Index s substr = some i) : i + substr.length ≤ s.length := by
  induction s generalizing i with
  | nil =>
    unfold Index at h
    by_cases hl : substr.length = 0
    · simp only [hl, if_true, Option.some.injEq] at h
      subst h
      simp [hl]
    · simp [hl] at h
  | cons c s ih =>
    unfold Index at h
    by_cases hpre : HasPrefix (c :: s) substr = true
    · simp only [hpre, if_true, Option.some.injEq] at h
      subst h
      simpa using ((HasPrefix_iff _ _).mp hpre).length_le
    · simp only [hpre, Bool.false_eq_true, if_false, Option.map_eq_some'] at h
      obtain ⟨j, hj, rfl⟩ := h
      have := ih j hj
      simp only [List.length_cons]
      omega

/-- A string that starts with `substr` has it at index 0. -/
theorem Index_at_start (s substr : GoString) (h : substr <+: s) :
    Index s substr = some 0 := by
  cases s with
  | nil =>
    have : substr = [] := List.prefix_nil.mp h
    subst this
    simp [Index]
  | cons c s =>
    unfold Index
    simp [(HasPrefix_iff _ _).mpr h]

/-! ## `strings.Count` -/

/-- The counter of `countLoop` is an accumulator. -/
theorem countLoop_acc (substr : GoString) (fuel : Nat) (s : GoString) (n : Nat) :
    countLoop substr fuel s n = n + countLoop substr fuel s 0 := by
  induction fuel generalizing s n with
  | zero => simp [countLoop]
  | succ f ih =>
    unfold countLoop
    cases h : Index s substr with
    | none => simp
    | some i =>
      simp only
      rw [ih _ (n + 1), ih _ (0 + 1)]
      omega

/-- With a non-empty `substr` every iteration shortens `s`, so any fuel above
`len(s)` gives the same count: the loop of `strings.Count` terminates. -/
theorem countLoop_fuel (substr : GoString) (hne : substr ≠ []) (f g : Nat)
    (s : GoString) (n : Nat) (hf : s.length < f) (hg : s.length < g) :
    countLoop substr f s n = countLoop substr g s n := by
  induction f generalizing g s n with
  | zero => omega
  | succ f ih =>
    cases g with
    | zero => omega
    | succ g =>
      unfold countLoop
      cases h : Index s substr with
      | none => rfl
      | some i =>
        simp only
        have hle := Index_some_le s substr i h
        have hpos : 0 < substr.length := List.length_pos.mpr hne
        apply ih
        · rw [List.length_drop]; omega
        · rw [List.length_drop]; omega

theorem Index_singleton_cons (a c : Byte) (t : GoString) :
    Index (a :: t) [c] = if a = c then some 0 else (Index t [c]).map (· + 1) := by
  rw [Index]
  by_cases h : a = c
  · subst h
    simp [HasPrefix]
  · have : HasPrefix (a :: t) [c] = false := by
      simp [HasPrefix, h]
    simp [this, h]

/-- The one-byte fast path of `strings.Count` counts what the general loop
counts. -/
theorem CountString_eq_countLoop (c : Byte) (s : GoString) (f : Nat)
    (hf : s.length < f) : CountString s c = countLoop [c] f s 0 := by
  induction s generalizing f with
  | nil =>
    cases f with
    | zero => simp at hf
    | succ f => simp [CountString, countLoop, Index]
  | cons a t ih =>
    cases f with
    | zero => simp at hf
    | succ f =>
      have hf' : t.length < f := by simpa using hf
      by_cases h : a = c
      · subst h
        rw [countLoop, Index_singleton_cons]
        simp only [if_true, List.length_singleton, Nat.zero_add, List.drop_succ_cons,
          List.drop_zero]
        rw [countLoop_acc, ← ih f hf']
        simp [CountString]
        omega
      · have hcs : CountString (a :: t) c = CountString t c := by
          simp [CountString, h]
        rw [hcs, ih f hf']
        cases f with
        | zero => simp at hf'
        | succ f' =>
          rw [countLoop, countLoop, Index_singleton_cons]
          simp only [h, if_false]
          cases hI : Index t [c] with
          | none => simp
          | some i =>
            simp only [Option.map_some', List.length_singleton, List.drop_succ_cons]
            have hle := Index_some_le t [c] i hI
            simp only [List.length_singleton] at hle
            apply countLoop_fuel _ (by simp)
            · rw [List.length_drop]; omega
            · rw [List.length_drop]; omega

/-- For a non-empty `substr`, `Count` is the loop, whatever branch it takes. -/
theorem Count_eq_countLoop (s substr : GoString) (hne : substr ≠ []) :
    Count s substr = countLoop substr (s.length + 1) s 0 := by
  match substr, hne with
  | [c], _ => simpa [Count] using CountString_eq_countLoop c s (s.length + 1) (by omega)
  | _ :: _ :: _, _ => simp [Count]

/-- `Count` is zero exactly when `substr` does not occur in `s`. -/
theorem Count_eq_zero_iff (s substr : GoString) (hne : substr ≠ []) :
    Count s substr = 0 ↔ ¬ substr <:+: s := by
  rw [Count_eq_countLoop s substr hne, ← Index_eq_none_iff, countLoop]
  cases h : Index s substr with
  | none => simp
  | some i =>
    simp only [reduceCtorEq, iff_false]
    rw [countLoop_acc]
    omega

/-- Removing a leading instance of `substr` lowers `Count` by one. -/
theorem Count_append_self (substr k : GoString) (hne : substr ≠ []) :
    Count (substr ++ k) substr = Count k substr + 1 := by
  rw [Count_eq_countLoop _ _ hne, Count_eq_countLoop _ _ hne, countLoop,
    Index_at_start _ _ (List.prefix_append substr k)]
  simp only [Nat.zero_add, List.drop_left]
  rw [countLoop_acc]
  have hpos : 0 < substr.length := List.length_pos.mpr hne
  rw [countLoop_fuel substr hne ((substr ++ k).length) (k.length + 1) k 0
    (by rw [List.length_append]; omega) (by omega)]
  omega

/-! ## `strings.Replace` -/

/-- As long as no more replacements are asked for than `Count` found, every
`Index` of the replacement loop finds an instance: the loop does not panic,
and each round trades one `old` for one `new`. -/
theorem replaceLoop_length (old new : GoString) (hne : old ≠ []) (k : Nat) :
    ∀ (fuel i : Nat) (s : GoString), s.length < fuel →
      k ≤ countLoop old fuel s 0 →
      ∃ out, replaceLoop old new k i s = some out ∧
        out.length + k * old.length = s.length + k * new.length := by
  have hpos : 0 < old.length := List.length_pos.mpr hne
  induction k with
  | zero =>
    intro fuel i s _ _
    exact ⟨s, by simp [replaceLoop]⟩
  | succ k ih =>
    intro fuel i s hf hk
    cases fuel with
    | zero => omega
    | succ f =>
      rw [countLoop] at hk
      rw [replaceLoop]
      have hl : ¬ old.length = 0 := by omega
      simp only [hl, if_false]
      cases hI : Index s old with
      | none => simp [hI] at hk
      | some j =>
        simp only [hI] at hk
        rw [countLoop_acc] at hk
        have hle := Index_some_le s old j hI
        have hdrop : (s.drop (j + old.length)).length < f := by
          rw [List.length_drop]; omega
        obtain ⟨out, hout, hlen⟩ := ih f (i + 1) (s.drop (j + old.length)) hdrop (by omega)
        refine ⟨s.take j ++ new ++ out, by simp [hout], ?_⟩
        rw [List.length_drop] at hlen
        simp only [List.length_append, List.length_take, Nat.succ_mul, Nat.add_mul]
        have hmin : min j s.length = j := by omega
        rw [hmin]
        omega

/-- With an empty `old` the replacement loop never consults `Index`. -/
theorem replaceLoop_empty (new : GoString) (k : Nat) :
    ∀ (i : Nat) (s : GoString), (replaceLoop [] new k i s).isSome = true := by
  induction k with
  | zero => intro i s; simp [replaceLoop]
  | succ k ih =>
    intro i s
    rw [replaceLoop]
    simp only [List.length_nil, if_true, Option.isSome_map']
    exact ih _ _

/-- Go `strings.Replace` returns: it never panics. -/
theorem Replace_returns (s old new : GoString) (n : Int) :
    (Replace s old new n).isSome = true := by
  unfold Replace
  by_cases h1 : old = new ∨ n = 0
  · simp [h1]
  · simp only [h1, if_false]
    by_cases h2 : Count s old = 0
    · simp [h2]
    · simp only [h2, if_false]
      by_cases hne : old = []
      · subst hne
        exact replaceLoop_empty _ _ _ _
      · have hk : (if n < 0 ∨ (Count s old : Int) < n then Count s old else n.toNat)
            ≤ countLoop old (s.length + 1) s 0 := by
          rw [← Count_eq_countLoop s old hne]
          split
          · exact Nat.le_refl _
          · omega
        obtain ⟨out, hout, _⟩ :=
          replaceLoop_length old new hne _ (s.length + 1) 0 s (by omega) hk
        simp [hout]

/-- `strings.Replace(s, old, "", -1)` on a string that starts with a non-empty
`old`: the leading instance goes, and the loop carries on in what follows it
with one replacement less. -/
theorem Replace_append_self (old k : GoString) (hne : old ≠ []) :
    Replace (old ++ k) old [] (-1) = replaceLoop old [] (Count k old) 1 k := by
  unfold Replace
  have h1 : ¬ (old = [] ∨ (-1 : Int) = 0) := by simp [hne]
  have h2 : ¬ Count (old ++ k) old = 0 := by rw [Count_append_self _ _ hne]; omega
  simp only [h1, h2, if_false]
  have h3 : ((-1 : Int) < 0 ∨ ((Count (old ++ k) old : Nat) : Int) < -1) := Or.inl (by decide)
  simp only [h3, if_true]
  rw [Count_append_self _ _ hne, replaceLoop]
  have hl : ¬ old.length = 0 := fun e => hne (List.length_eq_zero.mp e)
  simp only [hl, if_false, Index_at_start _ _ (List.prefix_append old k)]
  simp

/-! ## The adapter: URL and key -/

/-- `ObjectKey` returns for every adapter and every string. -/
theorem ObjectKey_returns (s : minioServant) (objectUrl : GoString) :
    (s.ObjectKey objectUrl).isSome = true :=
  Replace_returns objectUrl s.domain [] (-1)

/-- With an empty `domain`, `ObjectKey` returns its argument (`old == new` in
`strings.Replace`). -/
theorem ObjectKey_empty_domain (s : minioServant) (objectUrl : GoString)
    (h : s.domain = []) : s.ObjectKey objectUrl = some objectUrl := by
  simp [minioServant.ObjectKey, Replace, h]

/-- C9: for every adapter and every string `k`, the empty one included,
`ObjectURL(k)` is `domain ++ k`; the function is total, and two adapters with
the same `domain` give the same URL whatever their other fields are. -/
theorem ObjectURL_eq_domain_append (s : minioServant) (k : GoString) :
    s.ObjectURL k = s.domain ++ k ∧ s.ObjectURL [] = s.domain ∧
      ∀ s' : minioServant, s'.domain = s.domain → s'.ObjectURL k = s.ObjectURL k := by
  refine ⟨rfl, by simp [minioServant.ObjectURL], ?_⟩
  intro s' h
  simp [minioServant.ObjectURL, h]

/-- C9 at `demo` and `demoOff`, which share the domain `"aa"` and differ in
client and persistence flag: the URL of `"k"` is `"aak"` for both. -/
theorem ObjectURL_eq_domain_append_witness :
    demoOff.domain = demo.domain ∧ demo.ObjectURL [0x6B] = [0x61, 0x61, 0x6B] ∧
      demoOff.ObjectURL [0x6B] = demo.ObjectURL [0x6B] :=
  ⟨rfl, (ObjectURL_eq_domain_append demo [0x6B]).1,
    (ObjectURL_eq_domain_append demo [0x6B]).2.2 demoOff rfl⟩

/-- C1: for every adapter and every key `k` in which `domain` does not occur,
`ObjectKey(ObjectURL(k))` returns `k`. Instances of `domain` that start inside
the leading `domain` and end inside `k` do not matter: the scan of
`strings.Replace` resumes after the instance it removed at index 0. -/
theorem ObjectKey_ObjectURL_roundtrip (s : minioServant) (k : GoString)
    (h : ¬ s.domain <:+: k) : s.ObjectKey (s.ObjectURL k) = some k := by
  have hne : s.domain ≠ [] := by
    intro e
    apply h
    rw [e]
    exact ⟨[], k, rfl⟩
  unfold minioServant.ObjectKey minioServant.ObjectURL
  rw [Replace_append_self _ _ hne, (Count_eq_zero_iff k s.domain hne).mpr h]
  rfl

/-- C1 at domain `"aa"` and key `"ab"`: the URL `"aaab"` has an instance of
`"aa"` at index 1, across the boundary, and the key still comes back. -/
theorem ObjectKey_ObjectURL_roundtrip_witness :
    ¬ demo.domain <:+: [0x61, 0x62] ∧
      [0x61, 0x61] <+: List.drop 1 (demo.ObjectURL [0x61, 0x62]) ∧
      demo.ObjectKey (demo.ObjectURL [0x61, 0x62]) = some [0x61, 0x62] :=
  ⟨by decide, by decide, ObjectKey_ObjectURL_roundtrip demo [0x61, 0x62] (by decide)⟩

/-- C10: for every adapter with a non-empty `domain` and every key `k` in
which `domain` occurs, `ObjectKey(ObjectURL(k))` returns a string other than
`k`: it is shorter than `k` by `len(domain)` for each of the `Count(k, domain)`
instances removed from `k`, of which there is at least one. -/
theorem ObjectKey_ObjectURL_lossy (s : minioServant) (k : GoString)
    (hne : s.domain ≠ []) (h : s.domain <:+: k) :
    ∃ r, s.ObjectKey (s.ObjectURL k) = some r ∧ r ≠ k ∧ r.length < k.length ∧
      1 ≤ Count k s.domain ∧
      r.length + Count k s.domain * s.domain.length = k.length := by
  have hc : 1 ≤ Count k s.domain := by
    have := (Count_eq_zero_iff k s.domain hne).not.mpr (not_not.mpr h)
    omega
  have hpos : 0 < s.domain.length := List.length_pos.mpr hne
  obtain ⟨r, hr, hlen⟩ := replaceLoop_length s.domain [] hne (Count k s.domain)
    (k.length + 1) 1 k (by omega) (by rw [← Count_eq_countLoop k s.domain hne])
  simp only [List.length_nil, Nat.mul_zero, Nat.add_zero] at hlen
  have hmul : 1 ≤ Count k s.domain * s.domain.length := Nat.mul_pos hc hpos
  have hlt : r.length < k.length := by omega
  refine ⟨r, ?_, ?_, hlt, hc, hlen⟩
  · unfold minioServant.ObjectKey minioServant.ObjectURL
    rw [Replace_append_self _ _ hne, hr]
  · intro e
    rw [e] at hlt
    omega

/-- C10 at domain `"aa"` and key `"xaay"`: the URL is `"aaxaay"` and the key
that comes back is `"xy"`. -/
theorem ObjectKey_ObjectURL_lossy_witness :
    demo.domain ≠ [] ∧ demo.domain <:+: [0x78, 0x61, 0x61, 0x79] ∧
      demo.ObjectKey (demo.ObjectURL [0x78, 0x61, 0x61, 0x79]) = some [0x78, 0x79] ∧
      ∃ r, demo.ObjectKey (demo.ObjectURL [0x78, 0x61, 0x61, 0x79]) = some r ∧
        r ≠ [0x78, 0x61, 0x61, 0x79] ∧ r.length < 4 :=
  ⟨by decide, by decide, by decide,
    (ObjectKey_ObjectURL_lossy demo [0x78, 0x61, 0x61, 0x79] (by decide) (by decide)).imp
      (fun _ hr => ⟨hr.1, hr.2.1, hr.2.2.1⟩)⟩

/-! ## The adapter: bulk delete -/

/-- Draining the result channel keeps the last error seen, or the error held
before when no result carries one. -/
theorem drain_eq_getLast (results : List RemoveObjectError) (acc : Option Error) :
    results.foldl (fun err result => if result.Err ≠ none then result.Err else err) acc
      = ((results.filterMap (fun r => r.Err)).getLast?).or acc := by
  induction results generalizing acc with
  | nil => simp
  | cons r rest ih =>
    rw [List.foldl_cons, ih]
    cases hr : r.Err with
    | none => simp [List.filterMap_cons, hr]
    | some e =>
      simp only [List.filterMap_cons, hr, ne_eq, reduceCtorEq, not_false_eq_true, if_true]
      rw [List.getLast?_cons]
      cases (List.filterMap (fun r => r.Err) rest).getLast? <;> simp

/-- The loop of lines 78-82 on a result channel that is closed after its
results: it ends with the error of the last result that carries one, and with
`nil` exactly when no result carries one. This is the policy the comment of
line 77 states. -/
theorem range_last_error (ch : ResultCh) (h : ch.closed = true) :
    ch.range (fun err result => if result.Err ≠ none then result.Err else err) none
        = some ((ch.delivered.filterMap (fun r => r.Err)).getLast?) ∧
      (ch.range (fun err result => if result.Err ≠ none then result.Err else err) none
          = some none ↔ ∀ q ∈ ch.delivered, q.Err = none) := by
  have h0 : ch.range (fun err result => if result.Err ≠ none then result.Err else err) none
      = some ((ch.delivered.filterMap (fun r => r.Err)).getLast?) := by
    unfold ResultCh.range
    rw [if_pos h, drain_eq_getLast, Option.or_none]
  refine ⟨h0, ?_⟩
  rw [h0, Option.some.injEq, List.getLast?_eq_none_iff, List.filterMap_eq_nil_iff]

/-- While the objects channel stays open, the SDK's worker never closes the
result channel. -/
theorem removeObjects_open (multiDelete : List GoString → List RemoveObjectError)
    (fuel : Nat) (pending : List GoString) :
    (removeObjects multiDelete false fuel pending).closed = false := by
  induction fuel generalizing pending with
  | zero => rfl
  | succ f ih =>
    rw [removeObjects]
    by_cases h : 1000 ≤ pending.length
    · simp only [h, if_true]
      exact ih _
    · simp [h]

/-- Once the objects channel is closed after the keys, the SDK's worker closes
the result channel: the fuel of `Client.RemoveObjects` is enough. -/
theorem removeObjects_closes (multiDelete : List GoString → List RemoveObjectError)
    (fuel : Nat) (pending : List GoString) (hf : pending.length < fuel) :
    (removeObjects multiDelete true fuel pending).closed = true := by
  induction fuel generalizing pending with
  | zero => omega
  | succ f ih =>
    rw [removeObjects]
    by_cases h : 1000 ≤ pending.length
    · simp only [h, if_true]
      apply ih
      rw [List.length_drop]
      omega
    · by_cases h0 : pending.length = 0 <;> simp [h, h0]

/-- `DeleteObjects` returns exactly when the SDK rejects the bucket name, and
then it returns the error of that check; on a bucket name the SDK accepts it
does not return, whatever the keys are. -/
theorem DeleteObjects_returns_iff (s : minioServant) (objectKeys : List GoString)
    (tr : Trace) :
    (s.client.CheckValidBucketName s.bucket = none →
        (s.DeleteObjects objectKeys tr).1 = none) ∧
      (∀ err : Error, s.client.CheckValidBucketName s.bucket = some err →
        (s.DeleteObjects objectKeys tr).1 = some (some err)) := by
  constructor
  · intro h
    simp [minioServant.DeleteObjects, Client.RemoveObjects, h, ResultCh.range,
      removeObjects_open]
  · intro err h
    simp [minioServant.DeleteObjects, Client.RemoveObjects, h, ResultCh.range]

/-- C2 (code bug): `DeleteObjects(["1", "2", "3"])` on the bucket `"bkt"`, with
a store that deletes `"1"` and fails `"2"` with `errDown` and `"3"` with
`errDenied`, does not return: the objects channel is never closed, so the SDK
delivers nothing and never closes the result channel. Had the channel been
closed after the three keys, the SDK would deliver the two errors and close,
and the loop of lines 78-82 would end with `errDenied`, the last one. -/
theorem DeleteObjects_three_keys_blocks :
    demoOffBkt.client.CheckValidBucketName demoOffBkt.bucket = none ∧
      demoOffBkt.client.multiDelete [] demoOffBkt.bucket [[0x31], [0x32], [0x33]]
        = [⟨[0x31], none⟩, ⟨[0x32], some errDown⟩, ⟨[0x33], some errDenied⟩] ∧
      demoOffBkt.DeleteObjects [[0x31], [0x32], [0x33]] []
        = (none, [BackendCall.RemoveObjects [0x62, 0x6B, 0x74]
            ⟨[[0x31], [0x32], [0x33]], false⟩]) ∧
      demoOffBkt.client.RemoveObjects [] demoOffBkt.bucket ⟨[[0x31], [0x32], [0x33]], false⟩
        = ⟨[], false⟩ ∧
      demoOffBkt.client.RemoveObjects [] demoOffBkt.bucket ⟨[[0x31], [0x32], [0x33]], true⟩
        = ⟨[⟨[0x32], some errDown⟩, ⟨[0x33], some errDenied⟩], true⟩ ∧
      (demoOffBkt.client.RemoveObjects [] demoOffBkt.bucket
          ⟨[[0x31], [0x32], [0x33]], true⟩).range
        (fun err result => if result.Err ≠ none then result.Err else err) none
        = some (some errDenied) := by
  refine ⟨by decide, by decide, by decide, by decide, by decide, by decide⟩

/-- C5 (code bug): `DeleteObjects([])` on the bucket `"bkt"` calls the client's
`RemoveObjects` and then does not return: the objects channel is never closed,
so the SDK never closes the result channel. Had the channel been closed, the
SDK would close the result channel with nothing delivered, and the loop of
lines 78-82 would end with `nil`. -/
theorem DeleteObjects_no_keys_blocks :
    demoBkt.client.CheckValidBucketName demoBkt.bucket = none ∧
      demoBkt.DeleteObjects [] []
        = (none, [BackendCall.RemoveObjects [0x62, 0x6B, 0x74] ⟨[], false⟩]) ∧
      demoBkt.client.RemoveObjects [] demoBkt.bucket ⟨[], false⟩ = ⟨[], false⟩ ∧
      demoBkt.client.RemoveObjects [] demoBkt.bucket ⟨[], true⟩ = ⟨[], true⟩ ∧
      (demoBkt.client.RemoveObjects [] demoBkt.bucket ⟨[], true⟩).range
        (fun err result => if result.Err ≠ none then result.Err else err) none
        = some none := by
  refine ⟨by decide, by decide, by decide, by decide, by decide⟩

/-! ## The adapter: write, persist, lookup -/

/-- C3: the options `PutObject` hands to the client's write carry the caller's
content type, and they carry the mode `Governance` with retain-until
`now + retainInDays` exactly when `allowPersistObject` is set and `persistance`
is not; in every other case they carry no mode and no retain-until. -/
theorem PutObject_retention (s : minioServant) (now : Time)
    (objectKey reader : GoString) (objectSize : Int) (contentType : GoString)
    (persistance : Bool) (tr : Trace) :
    ∃ opts : PutObjectOptions,
      (s.PutObject now objectKey reader objectSize contentType persistance tr).2
          = tr ++ [BackendCall.PutObject s.bucket objectKey reader objectSize opts] ∧
        opts.ContentType = contentType ∧
        ((opts.Mode = some RetentionMode.Governance ∧
            opts.RetainUntilDate = some (now + s.retainInDays)) ↔
          (s.allowPersistObject = true ∧ persistance = false)) ∧
        (¬ (s.allowPersistObject = true ∧ persistance = false) →
          opts.Mode = none ∧ opts.RetainUntilDate = none) := by
  by_cases hc : s.allowPersistObject = true ∧ persistance = false
  · refine ⟨⟨contentType, some RetentionMode.Governance, some (now + s.retainInDays)⟩,
      ?_, rfl, ?_, ?_⟩
    · obtain ⟨h1, h2⟩ := hc
      simp only [minioServant.PutObject, h1, h2, Time.Add]
      split <;> rfl
    · simp [hc]
    · intro h; exact absurd hc h
  · refine ⟨⟨contentType, none, none⟩, ?_, rfl, ?_, ?_⟩
    · have hb : (s.allowPersistObject && !persistance) = false := by
        cases h1 : s.allowPersistObject <;> cases h2 : persistance <;> simp_all
      simp only [minioServant.PutObject, hb]
      split <;> rfl
    · simp [hc]
    · intro _; exact ⟨rfl, rfl⟩

/-- C3 at `demo` (persistence allowed, retention of one day), content type
`"t"`, clock at 1000: a write that does not ask for persistence carries
`Governance` until `1000 + 86400000000000`, a write that asks for it carries no
retention. -/
theorem PutObject_retention_witness :
    (demo.PutObject 1000 [0x6B] [0x63] 1 [0x74] false []).2
        = [BackendCall.PutObject [0x62] [0x6B] [0x63] 1
            ⟨[0x74], some RetentionMode.Governance, some 86400000001000⟩] ∧
      (demo.PutObject 1000 [0x6B] [0x63] 1 [0x74] true []).2
        = [BackendCall.PutObject [0x62] [0x6B] [0x63] 1 ⟨[0x74], none, none⟩] ∧
      ∃ opts : PutObjectOptions,
        (demo.PutObject 1000 [0x6B] [0x63] 1 [0x74] true []).2
            = [] ++ [BackendCall.PutObject demo.bucket [0x6B] [0x63] 1 opts] ∧
          opts.Mode = none ∧ opts.RetainUntilDate = none :=
  ⟨by decide, by decide,
    (PutObject_retention demo 1000 [0x6B] [0x63] 1 [0x74] true []).imp
      (fun _ h => ⟨h.1, h.2.2.2 (by decide)⟩)⟩

/-- C6: whatever the client answers to the write, `PutObject` returns
`(domain ++ key, nil)`, which is `ObjectURL(key)`, when the write succeeds, and
`("", e)` when it fails with `e`. -/
theorem PutObject_result (s : minioServant) (now : Time)
    (objectKey reader : GoString) (objectSize : Int) (contentType : GoString)
    (persistance : Bool) (tr : Trace) (opts : PutObjectOptions)
    (hcall : (s.PutObject now objectKey reader objectSize contentType persistance tr).2
      = tr ++ [BackendCall.PutObject s.bucket objectKey reader objectSize opts]) :
    (s.client.PutObject tr s.bucket objectKey reader objectSize opts = none →
        (s.PutObject now objectKey reader objectSize contentType persistance tr).1
            = (s.domain ++ objectKey, none) ∧
          (s.PutObject now objectKey reader objectSize contentType persistance tr).1.1
            = s.ObjectURL objectKey) ∧
      (∀ e : Error,
        s.client.PutObject tr s.bucket objectKey reader objectSize opts = some e →
        (s.PutObject now objectKey reader objectSize contentType persistance tr).1
          = ([], some e)) := by
  have key : ∀ o : PutObjectOptions,
      (match s.client.PutObject tr s.bucket objectKey reader objectSize o with
        | some e => ((([] : GoString), some e),
            tr ++ [BackendCall.PutObject s.bucket objectKey reader objectSize o])
        | none => ((s.domain ++ objectKey, (none : Option Error)),
            tr ++ [BackendCall.PutObject s.bucket objectKey reader objectSize o])).2
        = tr ++ [BackendCall.PutObject s.bucket objectKey reader objectSize opts] →
      o = opts := by
    intro o h
    cases hc : s.client.PutObject tr s.bucket objectKey reader objectSize o <;>
      simp only [hc] at h <;>
      simpa using h
  simp only [minioServant.PutObject] at hcall ⊢
  have ho := key _ hcall
  rw [ho]
  constructor
  · intro h
    simp [h, minioServant.ObjectURL]
  · intro e h
    simp [h]

/-- C6 at `demo`, whose client accepts the write, and at `demoOff`, whose
client refuses it with `errDown`. -/
theorem PutObject_result_witness :
    (demo.PutObject 1000 [0x6B] [0x63] 1 [0x74] true []).1 = ([0x61, 0x61, 0x6B], none) ∧
      (demoOff.PutObject 1000 [0x6B] [0x63] 1 [0x74] true []).1 = ([], some errDown) :=
  ⟨((PutObject_result demo 1000 [0x6B] [0x63] 1 [0x74] true [] ⟨[0x74], none, none⟩
      (by decide)).1 rfl).1,
    (PutObject_result demoOff 1000 [0x6B] [0x63] 1 [0x74] true [] ⟨[0x74], none, none⟩
      (by decide)).2 errDown rfl⟩

/-- C4: with `allowPersistObject = false`, `PersistObject` returns `nil` and
leaves the trace of client calls as it was, whatever the client would answer. -/
theorem PersistObject_noop (s : minioServant) (objectKey : GoString) (tr : Trace)
    (h : s.allowPersistObject = false) : s.PersistObject objectKey tr = (none, tr) := by
  simp [minioServant.PersistObject, h]

/-- C4 at `demoOff`, whose client would answer `errDown` to a retention
call. -/
theorem PersistObject_noop_witness :
    demoOff.allowPersistObject = false ∧
      demoOff.client.PutObjectRetention [] demoOff.bucket [0x6B]
        (some RetentionMode.Governance) (some demoOff.retainUntilDate) = some errDown ∧
      demoOff.PersistObject [0x6B] [] = (none, []) :=
  ⟨rfl, rfl, PersistObject_noop demoOff [0x6B] [] rfl⟩

/-- C7: `IsObjectExist` returns `(true, nil)` when the client's lookup
succeeds and `(false, err)` when it fails with `err`; the boolean is `true`
exactly when the returned error is `nil`. -/
theorem IsObjectExist_result (s : minioServant) (objectKey : GoString) (tr : Trace) :
    (s.client.StatObject tr s.bucket objectKey = none →
        (s.IsObjectExist objectKey tr).1 = (true, none)) ∧
      (∀ err : Error, s.client.StatObject tr s.bucket objectKey = some err →
        (s.IsObjectExist objectKey tr).1 = (false, some err)) ∧
      ((s.IsObjectExist objectKey tr).1.1 = true ↔
        (s.IsObjectExist objectKey tr).1.2 = none) := by
  simp only [minioServant.IsObjectExist]
  cases s.client.StatObject tr s.bucket objectKey <;> simp

/-- C7 at `demo`, whose lookup succeeds, and at `demoOff`, whose lookup fails
with `errDown`. -/
theorem IsObjectExist_result_witness :
    (demo.IsObjectExist [0x6B] []).1 = (true, none) ∧
      (demoOff.IsObjectExist [0x6B] []).1 = (false, some errDown) :=
  ⟨(IsObjectExist_result demo [0x6B] []).1 rfl,
    (IsObjectExist_result demoOff [0x6B] []).2.1 errDown rfl⟩

/-! ## The adapter: presigned URLs -/

/-- The int64 product of a number of seconds with `10^9` is the exact product
exactly on `[-9223372036, 9223372036]`. -/
theorem wrapInt64_mul_second (e : Int) (hlo : -2 ^ 63 ≤ e) (hhi : e < 2 ^ 63) :
    wrapInt64 (e * 10 ^ 9) = e * 10 ^ 9 ↔ (-9223372036 ≤ e ∧ e ≤ 9223372036) := by
  unfold wrapInt64
  have h1 := Int.emod_nonneg (e * 10 ^ 9 + 2 ^ 63) (by norm_num : (2 ^ 64 : Int) ≠ 0)
  have h2 := Int.emod_lt_of_pos (e * 10 ^ 9 + 2 ^ 63) (by norm_num : (0 : Int) < 2 ^ 64)
  have h3 := Int.emod_add_ediv (e * 10 ^ 9 + 2 ^ 63) (2 ^ 64)
  generalize (e * 10 ^ 9 + 2 ^ 63) % 2 ^ 64 = r at h1 h2 h3 ⊢
  generalize (e * 10 ^ 9 + 2 ^ 63) / 2 ^ 64 = q at h3
  norm_num at h1 h2 h3 hlo hhi ⊢
  constructor
  · intro h
    omega
  · intro h
    omega

/-- C8, as stated, fails: 9223372037 is an int64, and for it the duration
handed to the presign call is not 9223372037 seconds; the int64 product has
wrapped around to a negative number of nanoseconds. -/
theorem SignURL_expiry_wraps :
    (-2 ^ 63 ≤ (9223372037 : Int) ∧ (9223372037 : Int) < 2 ^ 63) ∧
      (demo.SignURL [0x6B] 9223372037 []).2
        = [BackendCall.PresignedGetObject demo.bucket [0x6B] (-9223372036709551616) []] ∧
      (-9223372036709551616 : Int) ≠ 9223372037 * 10 ^ 9 := by
  refine ⟨by decide, by decide, by decide⟩

/-- C8, amended: for every int64 `expiredInSec` the duration handed to the
presign call is the int64 product with `time.Second`, and that is
`expiredInSec * 10^9` nanoseconds exactly when
`-9223372036 ≤ expiredInSec ≤ 9223372036`. -/
theorem SignURL_expiry_passthrough (s : minioServant) (objectKey : GoString)
    (expiredInSec : Int) (tr : Trace)
    (hlo : -2 ^ 63 ≤ expiredInSec) (hhi : expiredInSec < 2 ^ 63) :
    ∃ d : Duration,
      (s.SignURL objectKey expiredInSec tr).2
          = tr ++ [BackendCall.PresignedGetObject s.bucket objectKey d []] ∧
        d = wrapInt64 (expiredInSec * 10 ^ 9) ∧
        (d = expiredInSec * 10 ^ 9 ↔
          (-9223372036 ≤ expiredInSec ∧ expiredInSec ≤ 9223372036)) := by
  refine ⟨wrapInt64 (expiredInSec * 10 ^ 9), ?_, rfl, ?_⟩
  · simp only [minioServant.SignURL, Duration.mul, Second]
    cases s.client.PresignedGetObject tr s.bucket objectKey
      (wrapInt64 (expiredInSec * 1000000000)) [] <;> norm_num
  · exact wrapInt64_mul_second expiredInSec hlo hhi

/-- C8 amended, at an expiry of 3600 seconds: the presign call receives
3600000000000 nanoseconds. -/
theorem SignURL_expiry_passthrough_witness :
    (-2 ^ 63 ≤ (3600 : Int) ∧ (3600 : Int) < 2 ^ 63) ∧
      ∃ d : Duration,
        (demo.SignURL [0x6B] 3600 []).2
            = [] ++ [BackendCall.PresignedGetObject demo.bucket [0x6B] d []] ∧
          d = 3600 * 10 ^ 9 :=
  ⟨by decide,
    (SignURL_expiry_passthrough demo [0x6B] 3600 [] (by decide) (by decide)).imp
      (fun _ h => ⟨h.1, h.2.2.mpr (by decide)⟩)⟩

/-! ## `strings.Replace` on concrete strings -/

/-- Instances are taken from left to right and do not overlap: removing
`"aa"` from `"aaaaa"` leaves `"a"`, and `Count` finds two instances. -/
theorem Replace_non_overlapping :
    Count [0x61, 0x61, 0x61, 0x61, 0x61] [0x61, 0x61] = 2 ∧
      Replace [0x61, 0x61, 0x61, 0x61, 0x61] [0x61, 0x61] [] (-1) = some [0x61] := by
  decide

/-- A positive `n` bounds the number of replacements. -/
theorem Replace_bounded :
    Replace [1, 1, 1, 1, 1] [1, 1] [9] 1 = some [9, 1, 1, 1] ∧
      Replace [1, 2, 1] [1] [7, 7] 5 = some [7, 7, 2, 7, 7] := by
  decide

/-- An empty `old` matches before the string and after each UTF-8 sequence:
`"aé"` is two runes in three bytes. -/
theorem Replace_empty_old :
    Replace [0x61, 0xC3, 0xA9] [] [9] (-1) = some [9, 0x61, 9, 0xC3, 0xA9, 9] := by
  decide

end Storage
